import Mathlib

/-!
Verification of the client-side synchronization layer of the rtnews-ui
repository (api module, redux store).  The definitions below are a shallow
embedding of the TypeScript source: JavaScript `Map` objects become
association lists with JS `Map` semantics (`set` replaces in place or
appends, `delete` removes the key, `get`/`has` find the first matching
key), promises returning parsed JSON become pure functions taking the
HTTP response as an explicit parameter, and promise rejection becomes
`Except.error`.
-/

namespace RTNews

/-! ### Association-list model of JavaScript Map -/

/-- JS `Map.prototype.get`: first value stored under key `k`, if any. -/
def mapGet {α : Type} : List (String × α) → String → Option α
  | [], _ => none
  | p :: rest, k => if p.1 = k then some p.2 else mapGet rest k

/-- JS `Map.prototype.has`. -/
def mapHas {α : Type} (m : List (String × α)) (k : String) : Bool :=
  (mapGet m k).isSome

/-- JS `Map.prototype.set`: replace the entry for `k` in place, or append
a fresh entry at the end (JS maps are insertion ordered). -/
def mapSet {α : Type} : List (String × α) → String → α → List (String × α)
  | [], k, v => [(k, v)]
  | p :: rest, k, v => if p.1 = k then (k, v) :: rest else p :: mapSet rest k v

/-- JS `Map.prototype.delete`: drop the entry stored under `k`. -/
def mapDelete {α : Type} : List (String × α) → String → List (String × α)
  | [], _ => []
  | p :: rest, k => if p.1 = k then mapDelete rest k else p :: mapDelete rest k

/-! ### Request gateway (api module, function `request`, lines 108-134)

`request` builds the fetch call and post-processes the response:
`if (req.status >= 400) throw req; return req.json().catch(() => null)`.
We model the already-received HTTP response as a status plus the JSON
parse outcome (`none` when the body is empty or unparsable), and a
rejected promise as `Except.error` carrying the raw response object. -/

/-- An HTTP response as `request` sees it: the status code and the result
of attempting to JSON-parse the body (`none` = empty/unparsable body). -/
structure HttpResponse (α : Type) where
  status : Nat
  json : Option α
deriving DecidableEq, Repr

/-- The response post-processing of `request` (api lines 130-133): any
status greater or equal 400 rejects with the raw response object, any other
status resolves with the parsed body, `null` (here `none`) when the body
did not parse. -/
def request {α : Type} (resp : HttpResponse α) : Except (HttpResponse α) (Option α) :=
  if 400 ≤ resp.status then Except.error resp else Except.ok resp.json

/-- A request issued to the backend: method and endpoint path.  The
`apiRoot` prefix and the cache-busting `?timestamp=` parameter that
`request` appends are the same on every call and are omitted. -/
structure Req where
  method : String
  url : String
deriving DecidableEq, Repr

/-! ### Article cache (api module, lines 166-210)

Only the fields of an article that the cache logic reads (`id`, `slug`,
`title`) are modelled; `processArticle` leaves all three unchanged (it
rewrites `snippet`, the parsed timestamps and `domain` only), so the
normalization step on the fetch path is the identity on this record. -/

structure Article where
  id : String
  slug : String
  title : String
deriving DecidableEq, Repr

/-- The parsed body of a single-article endpoint as `getArticle` /
`getArticleBySlug` inspect it: either an object that lacks an `id`
property, or an article object. -/
inductive ArticleBody where
  | noId
  | raw (a : Article)
deriving DecidableEq, Repr

/-- The two module-level maps: `articlesCache` maps slug to article,
`articlesIdSlugMap` maps id to slug (api lines 169 and 174). -/
structure CacheState where
  articlesCache : List (String × Article)
  articlesIdSlugMap : List (String × String)
deriving DecidableEq, Repr

/-- Both maps start out as `new Map()`. -/
def initialCacheState : CacheState := ⟨[], []⟩

/-- How a call to `getArticle`/`getArticleBySlug` can fail: the promise
rejection propagated unchanged from `request` (carrying the raw response),
or the `TypeError` thrown by `articleInit.hasOwnProperty("id")` when
`request` resolved `null`. -/
inductive GetFailure where
  | http (resp : HttpResponse ArticleBody)
  | typeError
deriving DecidableEq, Repr

/-- Result of one cache lookup call: the cache state afterwards, the
network requests issued during the call, and the settled promise. -/
structure GetResult where
  state : CacheState
  reqs : List Req
  outcome : Except GetFailure (Option Article)

/-- `getArticle` (api lines 179-194): on an indexed id, resolve with the
cached article (no request); otherwise issue `GET /news/id/{id}` and, on
a body carrying an `id`, insert into both maps keyed by the article's own
slug and id. -/
def getArticle (st : CacheState) (id : String) (resp : HttpResponse ArticleBody) : GetResult :=
  match mapGet st.articlesIdSlugMap id with
  | some slug => ⟨st, [], Except.ok (mapGet st.articlesCache slug)⟩
  | none =>
    let r : Req := ⟨"GET", "/news/id/" ++ id⟩
    match request resp with
    | Except.error e => ⟨st, [r], Except.error (GetFailure.http e)⟩
    | Except.ok none => ⟨st, [r], Except.error GetFailure.typeError⟩
    | Except.ok (some ArticleBody.noId) => ⟨st, [r], Except.ok none⟩
    | Except.ok (some (ArticleBody.raw a)) =>
      ⟨⟨mapSet st.articlesCache a.slug a, mapSet st.articlesIdSlugMap a.id a.slug⟩,
       [r], Except.ok (some a)⟩

/-- `getArticleBySlug` (api lines 199-210): a slug already in
`articlesCache` resolves without a request; otherwise issue
`GET /news/slug/{slug}` and insert the article under the requested slug
while indexing its id under the article's own slug (exactly as the source
does on lines 207-208). -/
def getArticleBySlug (st : CacheState) (slug : String) (resp : HttpResponse ArticleBody) : GetResult :=
  if mapHas st.articlesCache slug then ⟨st, [], Except.ok (mapGet st.articlesCache slug)⟩
  else
    let r : Req := ⟨"GET", "/news/slug/" ++ slug⟩
    match request resp with
    | Except.error e => ⟨st, [r], Except.error (GetFailure.http e)⟩
    | Except.ok none => ⟨st, [r], Except.error GetFailure.typeError⟩
    | Except.ok (some ArticleBody.noId) => ⟨st, [r], Except.ok none⟩
    | Except.ok (some (ArticleBody.raw a)) =>
      ⟨⟨mapSet st.articlesCache slug a, mapSet st.articlesIdSlugMap a.id a.slug⟩,
       [r], Except.ok (some a)⟩

/-! ### Mutations (api module, lines 244-358)

Each mutation returns the cache state after the call together with the
list of requests it issues.  In the source only `addArticle` and
`updateArticle` contain a cache-eviction loop; the remaining mutation
functions consist of a single `request(...)` call and never mention the
two maps. -/

/-- The `for (let [slug, article] of articlesCache.entries())` eviction
loop shared by `addArticle` (match by title, lines 270-275) and
`updateArticle` (match by id, lines 285-290): every matching entry is
deleted from `articlesCache` under its slug key and from
`articlesIdSlugMap` under the article's id.  `l` is the entry snapshot
being iterated, `acc` the evolving state (deletion during iteration never
hides a yet-unvisited entry). -/
def evictLoopAux (cond : Article → Bool) : List (String × Article) → CacheState → CacheState
  | [], acc => acc
  | p :: rest, acc =>
    evictLoopAux cond rest
      (if cond p.2 then
        ⟨mapDelete acc.articlesCache p.1, mapDelete acc.articlesIdSlugMap p.2.id⟩
      else acc)

/-- Run the eviction loop over the current cache entries. -/
def evictLoop (cond : Article → Bool) (st : CacheState) : CacheState :=
  evictLoopAux cond st.articlesCache st

/-- `addArticle` (lines 244-282): evicts every cached article whose title
equals the `title` argument, then issues one POST, to `/news/manual` when
any of title/snippet/content/position is truthy, else to `/news`. -/
def addArticle (st : CacheState) (link title snippet content : String)
    (position : Option Int) : CacheState × List Req :=
  let isManual : Bool :=
    !title.isEmpty || !snippet.isEmpty || !content.isEmpty ||
      (match position with | some p => decide (p ≠ 0) | none => false)
  let _ := link
  let url := if isManual then "/news/manual" else "/news"
  (evictLoop (fun a => decide (a.title = title)) st, [⟨"POST", url⟩])

/-- `updateArticle` (lines 284-300): evicts every cached article whose id
equals the update's id, then POSTs to `/news/manual`. -/
def updateArticle (st : CacheState) (updatedId : String) : CacheState × List Req :=
  (evictLoop (fun a => decide (a.id = updatedId)) st, [⟨"POST", "/news/manual"⟩])

/-- `archiveArticle` (lines 302-304): a single PUT, no cache access. -/
def archiveArticle (st : CacheState) (id : String) : CacheState × List Req :=
  (st, [⟨"PUT", "/news/archive/" ++ id⟩])

/-- `activateArticle` (lines 306-308): a single PUT, no cache access. -/
def activateArticle (st : CacheState) (id : String) : CacheState × List Req :=
  (st, [⟨"PUT", "/news/active/" ++ id⟩])

/-- `removeArticle` (lines 310-312): a single DELETE, no cache access. -/
def removeArticle (st : CacheState) (id : String) : CacheState × List Req :=
  (st, [⟨"DELETE", "/news/" ++ id⟩])

/-- `restoreArticle` (lines 314-316): a single PUT, no cache access. -/
def restoreArticle (st : CacheState) (id : String) : CacheState × List Req :=
  (st, [⟨"PUT", "/news/undelete/" ++ id⟩])

/-- `moveArticle` (lines 318-325): a single PUT, no cache access. -/
def moveArticle (st : CacheState) (id : String) (offset : Int) : CacheState × List Req :=
  (st, [⟨"PUT", "/news/moveid/" ++ id ++ "/" ++ toString offset⟩])

/-- `makeArticleGeek` (lines 349-351): a single PUT, no cache access. -/
def makeArticleGeek (st : CacheState) (id : String) : CacheState × List Req :=
  (st, [⟨"PUT", "/news/geek/" ++ id⟩])

/-- `makeArticleNotGeek` (lines 356-358): a single PUT, no cache access. -/
def makeArticleNotGeek (st : CacheState) (id : String) : CacheState × List Req :=
  (st, [⟨"PUT", "/news/nogeek/" ++ id⟩])

/-- The error thrown by `makeArticleFirst` when the id has no entry in the
position table (`throw new Error("Can't find id's position")`). -/
inductive MoveError where
  | positionNotFound
deriving DecidableEq, Repr

/-- `makeArticleFirst` (lines 330-344): fetch the position table, fail if
the id is absent, otherwise compute
`maxPos = Object.values(positions).reduce((c, x) => Math.max(c, x), 0)`
and PUT a relative move by `maxPos - pos`.  The parsed position table is
passed in as `positions`; the state is untouched (the function never
mentions the cache maps). -/
def makeArticleFirst (st : CacheState) (id : String)
    (positions : List (String × Int)) : CacheState × List Req × Except MoveError Unit :=
  let getReq : Req := ⟨"GET", "/news/positions"⟩
  match mapGet positions id with
  | none => (st, [getReq], Except.error MoveError.positionNotFound)
  | some pos =>
    let maxPos := positions.foldl (fun c q => max c q.2) 0
    let offset := maxPos - pos
    (st, [getReq, ⟨"PUT", "/news/moveid/" ++ id ++ "/" ++ toString offset⟩], Except.ok ())

/-- The maximum position observed in the table, taken literally from the
claim's wording ("the maximum position observed in the table"): the
greatest of the values actually present, `0` for an empty table.  Kept as
a separate spec-side definition so it can be compared with what the code
computes (which seeds its `reduce` with `0`). -/
def claimMaxObserved (positions : List (String × Int)) : Int :=
  match positions.map Prod.snd with
  | [] => 0
  | v :: vs => vs.foldl max v

/-! ### Sequences of cache operations -/

/-- One call into the article cache, with the response the backend serves
to the call's fetch (unused when the call hits the cache). -/
inductive CacheOp where
  | getById (id : String) (resp : HttpResponse ArticleBody)
  | getBySlug (slug : String) (resp : HttpResponse ArticleBody)
  | add (link title snippet content : String) (position : Option Int)
  | update (updatedId : String)

/-- The cache state after one call. -/
def stepCache (st : CacheState) : CacheOp → CacheState
  | CacheOp.getById id resp => (getArticle st id resp).state
  | CacheOp.getBySlug slug resp => (getArticleBySlug st slug resp).state
  | CacheOp.add link title snippet content position =>
    (addArticle st link title snippet content position).1
  | CacheOp.update updatedId => (updateArticle st updatedId).1

/-- The cache state after a sequence of calls. -/
def runCache (st : CacheState) (ops : List CacheOp) : CacheState :=
  ops.foldl stepCache st

/-- A response body is consistent with the backend's fixed id-per-slug
assignment `idOf`. -/
def bodyConsistent (idOf : String → String) (resp : HttpResponse ArticleBody) : Prop :=
  match resp.json with
  | some (ArticleBody.raw a) => a.id = idOf a.slug
  | _ => True

/-- A slug-endpoint response body actually carries the requested slug and
is consistent with `idOf`. -/
def bodyMatches (idOf : String → String) (slug : String)
    (resp : HttpResponse ArticleBody) : Prop :=
  match resp.json with
  | some (ArticleBody.raw a) => a.slug = slug ∧ a.id = idOf slug
  | _ => True

/-- The backend behaves like a fixed article table: every served article
has the id belonging to its slug, and the slug endpoint serves the slug it
was asked for (spec section 3: id and slug are stable identity). -/
def goodOp (idOf : String → String) : CacheOp → Prop
  | CacheOp.getById _ resp => bodyConsistent idOf resp
  | CacheOp.getBySlug slug resp => bodyMatches idOf slug resp
  | CacheOp.add _ _ _ _ _ => True
  | CacheOp.update _ => True

/-- The claimed cache-index invariant: every id indexed in
`articlesIdSlugMap` points at a slug that is a key of `articlesCache`. -/
def idSlugIndexConsistent (st : CacheState) : Prop :=
  ∀ q ∈ st.articlesIdSlugMap, mapHas st.articlesCache q.2 = true

/-- The inductive strengthening: cached entries sit under their own slug
with the id belonging to that slug, and the id index agrees with `idOf`
and only mentions live slugs. -/
def cacheInv (idOf : String → String) (st : CacheState) : Prop :=
  (∀ p ∈ st.articlesCache, p.2.slug = p.1 ∧ p.2.id = idOf p.1) ∧
  (∀ q ∈ st.articlesIdSlugMap, q.1 = idOf q.2 ∧ mapHas st.articlesCache q.2 = true)

/-! ### Snippet normalization (api module, lines 15-28)

`processArticle` rewrites `snippet` with
`.replace(/(\t|\s)+/g, " ").replace(/([^\s\\]{16})/gm, "$1&shy;")`.
The first replace collapses every maximal run of whitespace to a single
space (`\t` is already inside `\s`); the second scans left to right and
appends the five characters `&shy;` after every 16 consecutive characters
that are neither whitespace nor a backslash, resuming the scan after the
matched 16 characters. -/

/-- JavaScript regexp `\s` (the whitespace class used by both regexes). -/
def isJsWhitespace (c : Char) : Bool :=
  c = ' ' || c = '\t' || c = '\n' || c = '\r' || c = '\u000b' || c = '\u000c' ||
  c = '\u00a0' || c = '\u1680' || ('\u2000' ≤ c && c ≤ '\u200a') ||
  c = '\u2028' || c = '\u2029' || c = '\u202f' || c = '\u205f' ||
  c = '\u3000' || c = '\ufeff'

/-- A character matched by `[^\s\\]` in the long-word regex. -/
def isLongWordChar (c : Char) : Bool :=
  !isJsWhitespace c && !(c = '\\')

/-- `replace(/(\t|\s)+/g, " ")` on the character list: the flag records
whether the previous character belonged to a whitespace run already
replaced by a single space. -/
def collapseWhitespace : Bool → List Char → List Char
  | _, [] => []
  | prevWs, c :: rest =>
    if isJsWhitespace c then
      if prevWs then collapseWhitespace true rest
      else ' ' :: collapseWhitespace true rest
    else c :: collapseWhitespace false rest

/-- The replacement text `&shy;`. -/
def shyMarker : List Char := ['&', 's', 'h', 'y', ';']

/-- `replace(/([^\s\\]{16})/gm, "$1&shy;")`: `k` counts the characters
matched so far by the current attempt; the 16th long-word character in a
row completes a match, the marker is appended and the scan resumes after
the match. -/
def insertShy : Nat → List Char → List Char
  | _, [] => []
  | k, c :: rest =>
    if isLongWordChar c then
      if k = 15 then c :: (shyMarker ++ insertShy 0 rest)
      else c :: insertShy (k + 1) rest
    else c :: insertShy 0 rest

/-- The snippet rewrite of `processArticle` (lines 25-27). -/
def normalizeSnippet (s : String) : String :=
  List.asString (insertShy 0 (collapseWhitespace false s.data))

/-- No run of 16 long-word characters occurs (counting from `k` already
seen): on such inputs the long-word regex finds no match. -/
def noLongRun : Nat → List Char → Bool
  | _, [] => true
  | k, c :: rest =>
    if isLongWordChar c then decide (k + 1 < 16) && noLongRun (k + 1) rest
    else noLongRun 0 rest

/-! ### Active-article poller (api module, lines 226-238)

The loop body either returns (a non-null body owning an `id`), keeps
looping (null body or no `id`), or catches a network failure, logs it and
sleeps 3000 ms before retrying.  A run of the loop is modelled by the
sequence of outcomes the repeated `request` calls produce. -/

/-- One iteration's outcome of `request(/news/active/wait/{ms})`: a
rejection, or a parsed body (`none` = `null`, `some none` = object without
`id`, `some (some i)` = object with id `i`). -/
inductive PollEvent where
  | failed
  | succeeded (body : Option (Option String))
deriving DecidableEq, Repr

/-- Observable outcome of a poll run: the resolved id (none while the
given iterations are exhausted without an id), the total milliseconds
spent in the cooldown `sleep(3000)` calls, and the number of errors
logged. -/
structure PollOutcome where
  result : Option String
  slept : Nat
  logged : Nat
deriving DecidableEq, Repr

/-- `pollActiveArticle` (lines 226-238) run against a sequence of
iteration outcomes. -/
def pollActiveArticle : List PollEvent → PollOutcome
  | [] => ⟨none, 0, 0⟩
  | PollEvent.failed :: rest =>
    let o := pollActiveArticle rest
    ⟨o.result, 3000 + o.slept, 1 + o.logged⟩
  | PollEvent.succeeded body :: rest =>
    match body with
    | some (some i) => ⟨some i, 0, 0⟩
    | _ => pollActiveArticle rest

/-- The id carried by an iteration outcome, if it is a successful response
owning an `id` property. -/
def pollEventId : PollEvent → Option String
  | PollEvent.succeeded (some (some i)) => some i
  | _ => none

/-- Spec-side description: the id of the first successful response that
carries an id field. -/
def firstIdentityResponse : List PollEvent → Option String
  | [] => none
  | e :: rest =>
    match pollEventId e with
    | some i => some i
    | none => firstIdentityResponse rest

/-- Spec-side description: how many network failures occur before the
first id-carrying success (every one of them is absorbed and logged). -/
def failuresBeforeIdentity : List PollEvent → Nat
  | [] => 0
  | e :: rest =>
    match pollEventId e with
    | some _ => 0
    | none => (if e = PollEvent.failed then 1 else 0) + failuresBeforeIdentity rest

/-! ### Notification queue (store module, lines 30-144)

The redux store state and the reducer.  `data` is an opaque renderable
payload, modelled by the HTML string it was built from; `context` is the
opaque nullable grouping key, modelled as `Option String` with `none`
standing for JS `null`/absent; `time` is `Option Nat` with `none` standing
for the no-auto-dismiss `null`. -/

structure Notification where
  id : Nat
  dataHtml : String
  level : String
  time : Option Nat
  closable : Bool
  context : Option String
deriving DecidableEq, Repr

/-- A partial notification record passed to `addNotification`: each field
optionally present (`none` = key absent, so the default applies). -/
structure NotificationInit where
  dataHtml : Option String
  level : Option String
  time : Option (Option Nat)
  closable : Option Bool
  context : Option (Option String)
deriving DecidableEq, Repr

/-- The two non-deferred argument shapes of `addNotification`: a plain
string or a partial record.  (The deferred-producer shape is not needed by
any claim and is omitted.) -/
inductive NotifInput where
  | str (s : String)
  | init (p : NotificationInit)
deriving DecidableEq, Repr

/-- `createNotification` (store lines 70-97) at counter value `nid`: a
string becomes `{data, time: 3000, level: "default"}`; then the id is
assigned and `Object.assign({context: null, level: "default", time: 3000,
closable: true}, notification)` fills every still-missing field. -/
def createNotification (input : NotifInput) (nid : Nat) : Notification :=
  match input with
  | NotifInput.str s =>
    { id := nid, dataHtml := s, level := "default", time := some 3000,
      closable := true, context := none }
  | NotifInput.init p =>
    { id := nid, dataHtml := p.dataHtml.getD "",
      level := p.level.getD "default", time := p.time.getD (some 3000),
      closable := p.closable.getD true, context := p.context.getD none }

/-- The redux `State` (store lines 4-18). -/
structure StoreState where
  issueNumber : Option Int
  isAdmin : Bool
  notifications : List Notification
  activeId : Option String
  theme : String
deriving DecidableEq, Repr

/-- `initialState` (store lines 12-18). -/
def initialStoreState : StoreState := ⟨none, false, [], none, "day"⟩

/-- The store actions that touch the notification queue.  `setState` as
used by `removeNotificationsWithContext` replaces the notifications list
wholesale. -/
inductive StoreAction where
  | setNotifications (l : List Notification)
  | addNotification (n : Notification)
  | removeNotification (n : Notification)

/-- The `removeNotification` reducer case (store lines 42-51):
`indexOf` the notification, leave the state untouched when it is absent,
otherwise drop exactly that occurrence
(`slice(0, index) ++ slice(index + 1)`). -/
def removeFirstNotification : List Notification → Notification → List Notification
  | [], _ => []
  | x :: rest, n => if x = n then rest else x :: removeFirstNotification rest n

/-- `rootReducer` (store lines 30-55), restricted to the actions above. -/
def rootReducer (st : StoreState) : StoreAction → StoreState
  | StoreAction.setNotifications l => { st with notifications := l }
  | StoreAction.addNotification n => { st with notifications := st.notifications ++ [n] }
  | StoreAction.removeNotification n =>
    { st with notifications := removeFirstNotification st.notifications n }

/-- `addNotification` (store lines 99-129) for the string/record shapes:
create the notification at the current counter value, dispatch the add
action, and schedule the auto-dismiss timer when `time !== null`.  Returns
the new state, the created notification and whether a timer was
scheduled (the timer firing later dispatches `removeNotification`). -/
def addNotification (st : StoreState) (input : NotifInput) (nid : Nat) :
    StoreState × Notification × Bool :=
  let n := createNotification input nid
  (rootReducer st (StoreAction.addNotification n), n, n.time.isSome)

/-- `removeNotification` (store lines 131-136). -/
def removeNotification (st : StoreState) (n : Notification) : StoreState :=
  rootReducer st (StoreAction.removeNotification n)

/-- `removeNotificationsWithContext` (store lines 138-144): replace the
queue by the notifications whose `context !== context`. -/
def removeNotificationsWithContext (st : StoreState) (context : Option String) : StoreState :=
  rootReducer st
    (StoreAction.setNotifications
      (st.notifications.filter (fun n => !decide (n.context = context))))

/-! ### Lemmas about the Map model -/

theorem mapGet_mapSet_self {α : Type} (m : List (String × α)) (k : String) (v : α) :
    mapGet (mapSet m k v) k = some v := by
  induction m with
  | nil => simp [mapSet, mapGet]
  | cons p rest ih =>
    by_cases h : p.1 = k
    · simp [mapSet, h, mapGet]
    · simp [mapSet, h, mapGet, ih]

theorem mapHas_mapSet_self {α : Type} (m : List (String × α)) (k : String) (v : α) :
    mapHas (mapSet m k v) k = true := by
  simp [mapHas, mapGet_mapSet_self]

theorem mem_mapSet {α : Type} {m : List (String × α)} {k : String} {v : α}
    {p : String × α} (h : p ∈ mapSet m k v) : p = (k, v) ∨ p ∈ m := by
  induction m with
  | nil => simpa [mapSet] using h
  | cons q rest ih =>
    by_cases hq : q.1 = k
    · simp only [mapSet, if_pos hq] at h
      rcases List.mem_cons.mp h with h | h
      · exact Or.inl h
      · exact Or.inr (List.mem_cons_of_mem _ h)
    · simp only [mapSet, if_neg hq] at h
      rcases List.mem_cons.mp h with h | h
      · exact Or.inr (h ▸ List.mem_cons_self _ _)
      · rcases ih h with h | h
        · exact Or.inl h
        · exact Or.inr (List.mem_cons_of_mem _ h)

theorem mapHas_mapSet {α : Type} (m : List (String × α)) (k s : String) (v : α)
    (h : mapHas m s = true) : mapHas (mapSet m k v) s = true := by
  induction m with
  | nil => simp [mapHas, mapGet] at h
  | cons p rest ih =>
    by_cases hp : p.1 = k
    · by_cases hs : p.1 = s
      · have : k = s := hp ▸ hs
        simp [mapSet, hp, mapHas, mapGet, this]
      · simp only [mapHas, mapGet, if_neg hs] at h
        simp only [mapSet, if_pos hp, mapHas, mapGet]
        by_cases hks : k = s
        · simp [hks]
        · simpa [hks, mapHas] using h
    · by_cases hs : p.1 = s
      · have hsk : ¬s = k := fun hsk => hp (hs.trans hsk)
        simp [mapSet, hp, mapHas, mapGet, hs, hsk]
      · simp only [mapHas, mapGet, if_neg hs] at h
        simp only [mapSet, if_neg hp, mapHas, mapGet, if_neg hs]
        exact ih h

theorem mem_mapDelete {α : Type} {m : List (String × α)} {k : String}
    {p : String × α} (h : p ∈ mapDelete m k) : p ∈ m ∧ p.1 ≠ k := by
  induction m with
  | nil => simp [mapDelete] at h
  | cons q rest ih =>
    by_cases hq : q.1 = k
    · simp only [mapDelete, if_pos hq] at h
      exact ⟨List.mem_cons_of_mem _ (ih h).1, (ih h).2⟩
    · simp only [mapDelete, if_neg hq] at h
      rcases List.mem_cons.mp h with h | h
      · exact ⟨h ▸ List.mem_cons_self _ _, h ▸ hq⟩
      · exact ⟨List.mem_cons_of_mem _ (ih h).1, (ih h).2⟩

theorem mapGet_mapDelete_self {α : Type} (m : List (String × α)) (k : String) :
    mapGet (mapDelete m k) k = none := by
  induction m with
  | nil => simp [mapDelete, mapGet]
  | cons p rest ih =>
    by_cases hp : p.1 = k
    · simpa [mapDelete, hp] using ih
    · simp [mapDelete, hp, mapGet, ih]

theorem mapHas_mapDelete_self {α : Type} (m : List (String × α)) (k : String) :
    mapHas (mapDelete m k) k = false := by
  simp [mapHas, mapGet_mapDelete_self]

theorem mapGet_mapDelete_ne {α : Type} (m : List (String × α)) {k s : String}
    (h : s ≠ k) : mapGet (mapDelete m k) s = mapGet m s := by
  induction m with
  | nil => simp [mapDelete]
  | cons p rest ih =>
    by_cases hp : p.1 = k
    · have hps : ¬p.1 = s := fun hq => h ((hq ▸ hp : s = k))
      have hks : ¬k = s := fun hks => h hks.symm
      simp [mapDelete, hp, mapGet, hps, hks, ih]
    · by_cases hs : p.1 = s
      · simp [mapDelete, hp, mapGet, hs, h]
      · simp [mapDelete, hp, mapGet, hs, ih]

theorem mapHas_mapDelete_ne {α : Type} (m : List (String × α)) {k s : String}
    (h : s ≠ k) : mapHas (mapDelete m k) s = mapHas m s := by
  simp [mapHas, mapGet_mapDelete_ne m h]

theorem mapHas_mapDelete_of_false {α : Type} (m : List (String × α)) (k s : String)
    (h : mapHas m s = false) : mapHas (mapDelete m k) s = false := by
  by_cases hs : s = k
  · simpa [hs] using mapHas_mapDelete_self m k
  · rw [mapHas_mapDelete_ne m hs]; exact h

theorem mapGet_eq_some_mem {α : Type} {m : List (String × α)} {k : String} {v : α}
    (h : mapGet m k = some v) : (k, v) ∈ m := by
  induction m with
  | nil => simp [mapGet] at h
  | cons p rest ih =>
    by_cases hp : p.1 = k
    · simp only [mapGet, if_pos hp] at h
      have : p = (k, v) := Prod.ext hp (Option.some_injective _ h)
      exact this ▸ List.mem_cons_self _ _
    · simp only [mapGet, if_neg hp] at h
      exact List.mem_cons_of_mem _ (ih h)

theorem mapHas_of_mem {α : Type} {m : List (String × α)} {p : String × α}
    (h : p ∈ m) : mapHas m p.1 = true := by
  induction m with
  | nil => simp at h
  | cons q rest ih =>
    rcases List.mem_cons.mp h with h | h
    · simp [mapHas, mapGet, h]
    · by_cases hq : q.1 = p.1
      · simp [mapHas, mapGet, hq]
      · simpa [mapHas, mapGet, hq] using ih h

/-! ### Lemmas about the eviction loop -/

theorem evictLoopAux_cache_stays_gone (cond : Article → Bool) :
    ∀ (l : List (String × Article)) (acc : CacheState) (k : String),
      mapHas acc.articlesCache k = false →
      mapHas (evictLoopAux cond l acc).articlesCache k = false := by
  intro l
  induction l with
  | nil => intro acc k h; exact h
  | cons p rest ih =>
    intro acc k h
    by_cases hc : cond p.2
    · exact ih _ k (by simpa [hc] using mapHas_mapDelete_of_false acc.articlesCache p.1 k h)
    · simpa [evictLoopAux, hc] using ih acc k h

theorem evictLoopAux_idmap_stays_gone (cond : Article → Bool) :
    ∀ (l : List (String × Article)) (acc : CacheState) (k : String),
      mapHas acc.articlesIdSlugMap k = false →
      mapHas (evictLoopAux cond l acc).articlesIdSlugMap k = false := by
  intro l
  induction l with
  | nil => intro acc k h; exact h
  | cons p rest ih =>
    intro acc k h
    by_cases hc : cond p.2
    · exact ih _ k
        (by simpa [hc] using mapHas_mapDelete_of_false acc.articlesIdSlugMap p.2.id k h)
    · simpa [evictLoopAux, hc] using ih acc k h

/-- Every entry of the iterated snapshot that matches the condition ends
up deleted from both maps. -/
theorem evictLoopAux_removes (cond : Article → Bool) :
    ∀ (l : List (String × Article)) (acc : CacheState) (p : String × Article),
      p ∈ l → cond p.2 = true →
      mapHas (evictLoopAux cond l acc).articlesCache p.1 = false ∧
      mapHas (evictLoopAux cond l acc).articlesIdSlugMap p.2.id = false := by
  intro l
  induction l with
  | nil => intro acc p hp; simp at hp
  | cons q rest ih =>
    intro acc p hp hc
    rcases List.mem_cons.mp hp with hp | hp
    · subst hp
      constructor
      · refine evictLoopAux_cache_stays_gone cond rest _ p.1 ?_
        simp [hc, mapHas_mapDelete_self]
      · refine evictLoopAux_idmap_stays_gone cond rest _ p.2.id ?_
        simp [hc, mapHas_mapDelete_self]
    · exact ih _ p hp hc

/-- The eviction loop preserves the strengthened cache invariant: the
snapshot entries all carry the id belonging to their slug key, so a
deleted cache entry always takes exactly its own id-index entry with it,
leaving no dangling slug reference. -/
theorem evictLoopAux_inv (idOf : String → String) (cond : Article → Bool) :
    ∀ (l : List (String × Article)) (acc : CacheState),
      (∀ p ∈ l, p.2.id = idOf p.1) →
      (∀ p ∈ acc.articlesCache, p.2.slug = p.1 ∧ p.2.id = idOf p.1) →
      (∀ q ∈ acc.articlesIdSlugMap, q.1 = idOf q.2 ∧ mapHas acc.articlesCache q.2 = true) →
      cacheInv idOf (evictLoopAux cond l acc) := by
  intro l
  induction l with
  | nil => intro acc _ h2 h3; exact ⟨h2, h3⟩
  | cons p rest ih =>
    intro acc hl h2 h3
    by_cases hc : cond p.2
    · have hpid : p.2.id = idOf p.1 := hl p (List.mem_cons_self _ _)
      simp only [evictLoopAux, if_pos hc]
      refine ih _ (fun q hq => hl q (List.mem_cons_of_mem _ hq)) ?_ ?_
      · intro q hq
        exact h2 q (mem_mapDelete hq).1
      · intro q hq
        rcases mem_mapDelete hq with ⟨hqmem, hqne⟩
        rcases h3 q hqmem with ⟨hqid, hqhas⟩
        refine ⟨hqid, ?_⟩
        have hne : q.2 ≠ p.1 := by
          intro he
          exact hqne (by rw [hqid, he, ← hpid])
        rw [mapHas_mapDelete_ne _ hne]
        exact hqhas
    · simp only [evictLoopAux, if_neg hc]
      exact ih acc (fun q hq => hl q (List.mem_cons_of_mem _ hq)) h2 h3

/-- One cache call preserves the strengthened invariant, given a backend
consistent with the fixed table `idOf`. -/
theorem stepCache_inv (idOf : String → String) (st : CacheState) (op : CacheOp)
    (hop : goodOp idOf op) (hinv : cacheInv idOf st) : cacheInv idOf (stepCache st op) := by
  rcases hinv with ⟨h1, h2⟩
  cases op with
  | getById id resp =>
    simp only [stepCache, getArticle]
    cases hidx : mapGet st.articlesIdSlugMap id with
    | some slug => exact ⟨h1, h2⟩
    | none =>
      simp only [request]
      by_cases hst : 400 ≤ resp.status
      · simp only [if_pos hst]; exact ⟨h1, h2⟩
      · simp only [if_neg hst]
        cases hj : resp.json with
        | none => exact ⟨h1, h2⟩
        | some body =>
          cases body with
          | noId => exact ⟨h1, h2⟩
          | raw a =>
            have ha : a.id = idOf a.slug := by
              simpa [goodOp, bodyConsistent, hj] using hop
            constructor
            · intro p hp
              rcases mem_mapSet hp with hp | hp
              · subst hp; exact ⟨rfl, ha⟩
              · exact h1 p hp
            · intro q hq
              rcases mem_mapSet hq with hq | hq
              · subst hq
                exact ⟨ha, mapHas_mapSet_self _ _ _⟩
              · rcases h2 q hq with ⟨hqid, hqhas⟩
                exact ⟨hqid, mapHas_mapSet _ _ _ _ hqhas⟩
  | getBySlug slug resp =>
    simp only [stepCache, getArticleBySlug]
    by_cases hhit : mapHas st.articlesCache slug
    · simp only [if_pos hhit]; exact ⟨h1, h2⟩
    · simp only [if_neg hhit, request]
      by_cases hst : 400 ≤ resp.status
      · simp only [if_pos hst]; exact ⟨h1, h2⟩
      · simp only [if_neg hst]
        cases hj : resp.json with
        | none => exact ⟨h1, h2⟩
        | some body =>
          cases body with
          | noId => exact ⟨h1, h2⟩
          | raw a =>
            have ha : a.slug = slug ∧ a.id = idOf slug := by
              simpa [goodOp, bodyMatches, hj] using hop
            constructor
            · intro p hp
              rcases mem_mapSet hp with hp | hp
              · subst hp; exact ⟨ha.1, ha.1 ▸ ha.2⟩
              · exact h1 p hp
            · intro q hq
              rcases mem_mapSet hq with hq | hq
              · subst hq
                refine ⟨ha.1 ▸ ha.2, ?_⟩
                rw [ha.1]
                exact mapHas_mapSet_self _ _ _
              · rcases h2 q hq with ⟨hqid, hqhas⟩
                exact ⟨hqid, mapHas_mapSet _ _ _ _ hqhas⟩
  | add link title snippet content position =>
    simp only [stepCache, addArticle, evictLoop]
    exact evictLoopAux_inv idOf _ _ _ (fun p hp => (h1 p hp).2) h1 h2
  | update updatedId =>
    simp only [stepCache, updateArticle, evictLoop]
    exact evictLoopAux_inv idOf _ _ _ (fun p hp => (h1 p hp).2) h1 h2

/-- The invariant holds in every state reachable from a given invariant
state by a sequence of consistent calls. -/
theorem runCache_inv (idOf : String → String) :
    ∀ (ops : List CacheOp) (st : CacheState),
      (∀ op ∈ ops, goodOp idOf op) → cacheInv idOf st →
      cacheInv idOf (runCache st ops) := by
  intro ops
  induction ops with
  | nil => intro st _ h; exact h
  | cons op rest ih =>
    intro st hops hinv
    exact ih (stepCache st op)
      (fun o ho => hops o (List.mem_cons_of_mem _ ho))
      (stepCache_inv idOf st op (hops op (List.mem_cons_self _ _)) hinv)

/-! ### Lemmas about the snippet normalization -/

/-- On inputs without a 16-run of long-word characters the long-word
replace is the identity. -/
theorem insertShy_of_noLongRun :
    ∀ (l : List Char) (k : Nat), noLongRun k l = true → insertShy k l = l := by
  intro l
  induction l with
  | nil => intro k _; rfl
  | cons c rest ih =>
    intro k h
    by_cases hw : isLongWordChar c
    · simp only [noLongRun, if_pos hw, Bool.and_eq_true, decide_eq_true_eq] at h
      have hk : ¬k = 15 := by omega
      simp only [insertShy, if_pos hw, if_neg hk]
      rw [ih _ h.2]
    · simp only [noLongRun, if_neg hw] at h
      simp only [insertShy, if_neg hw]
      rw [ih _ h]

/-- Collapsing whitespace twice is the same as collapsing it once. -/
theorem collapseWhitespace_idem :
    ∀ (l : List Char) (b : Bool),
      collapseWhitespace b (collapseWhitespace b l) = collapseWhitespace b l := by
  intro l
  induction l with
  | nil => intro b; rfl
  | cons c rest ih =>
    intro b
    by_cases hw : isJsWhitespace c
    · cases b with
      | true => simp only [collapseWhitespace, if_pos hw]; exact ih true
      | false =>
        simp only [collapseWhitespace, if_pos hw]
        have hsp : isJsWhitespace ' ' = true := by decide
        simp only [collapseWhitespace, hsp, if_true]
        rw [ih true]
    · simp only [collapseWhitespace, if_neg hw]
      rw [ih false]

/-- Collapsing whitespace never creates a 16-run of long-word characters
that was not there: the collapse only rewrites whitespace, and whenever it
is in skipping mode (`b = true`) the previous emitted character was a
space, so the run counter on the output side is zero as well. -/
theorem noLongRun_collapseWhitespace :
    ∀ (l : List Char) (k : Nat) (b : Bool), (b = true → k = 0) →
      noLongRun k l = true → noLongRun k (collapseWhitespace b l) = true := by
  intro l
  induction l with
  | nil => intro k b _ _; rfl
  | cons c rest ih =>
    intro k b hb h
    by_cases hw : isJsWhitespace c
    · have hcw : ¬isLongWordChar c = true := by
        simp [isLongWordChar, hw]
      simp only [noLongRun, if_neg hcw] at h
      cases b with
      | true =>
        have hk : k = 0 := hb rfl
        subst hk
        simp only [collapseWhitespace, if_pos hw]
        exact ih 0 true (fun _ => rfl) h
      | false =>
        have hsp : ¬isLongWordChar ' ' = true := by decide
        simp only [collapseWhitespace, if_pos hw, noLongRun, if_neg hsp]
        exact ih 0 true (fun _ => rfl) h
    · have hcw : isLongWordChar c = true ∨ ¬isLongWordChar c = true := em _
      simp only [collapseWhitespace, if_neg hw]
      by_cases hlw : isLongWordChar c
      · simp only [noLongRun, if_pos hlw, Bool.and_eq_true, decide_eq_true_eq] at h ⊢
        exact ⟨h.1, ih (k + 1) false (by simp) h.2⟩
      · simp only [noLongRun, if_neg hlw] at h ⊢
        exact ih 0 false (by simp) h

/-! ### Lemma about the position-table fold -/

/-- Pulling the accumulator out of a left fold of `max`. -/
theorem foldl_max_pull (xs : List Int) :
    ∀ (a x : Int), xs.foldl max (max a x) = max a (xs.foldl max x) := by
  induction xs with
  | nil => intro a x; rfl
  | cons y ys ih =>
    intro a x
    simp only [List.foldl_cons]
    rw [max_assoc, ih]

/-- Folding `max` over the values of the pairs is folding it over the
mapped value list. -/
theorem foldl_max_snd (l : List (String × Int)) :
    ∀ (a : Int), l.foldl (fun c q => max c q.2) a = (l.map Prod.snd).foldl max a := by
  induction l with
  | nil => intro a; rfl
  | cons p rest ih =>
    intro a
    simp only [List.foldl_cons, List.map_cons]
    exact ih _

/-! ### Lemmas about the notification queue -/

theorem removeFirstNotification_not_mem {l : List Notification} {n : Notification}
    (h : n ∉ l) : removeFirstNotification l n = l := by
  induction l with
  | nil => rfl
  | cons x rest ih =>
    have hx : ¬x = n := fun he => h (he ▸ List.mem_cons_self _ _)
    simp only [removeFirstNotification, if_neg hx]
    rw [ih (fun hm => h (List.mem_cons_of_mem _ hm))]

theorem removeFirstNotification_append {l₁ l₂ : List Notification} {n : Notification}
    (h : n ∉ l₁) : removeFirstNotification (l₁ ++ n :: l₂) n = l₁ ++ l₂ := by
  induction l₁ with
  | nil => simp [removeFirstNotification]
  | cons x rest ih =>
    have hx : ¬x = n := fun he => h (he ▸ List.mem_cons_self _ _)
    simp only [List.cons_append, removeFirstNotification, if_neg hx]
    exact congrArg (List.cons x) (ih (fun hm => h (List.mem_cons_of_mem _ hm)))

/-! ### Claim theorems -/

/-- Claim C1, counterexample: `archiveArticle` targeting id "1" while the
cache holds the entry for that very id leaves the entry in both mappings
and still issues its write request — so it is false that every mutation
operation evicts the matching entry before writing. -/
theorem c1_counterexample :
    (archiveArticle ⟨[("s", ⟨"1", "s", "t"⟩)], [("1", "s")]⟩ "1").1 =
      ⟨[("s", ⟨"1", "s", "t"⟩)], [("1", "s")]⟩ ∧
    mapHas (archiveArticle ⟨[("s", ⟨"1", "s", "t"⟩)], [("1", "s")]⟩ "1").1.articlesCache "s" = true ∧
    mapGet (archiveArticle ⟨[("s", ⟨"1", "s", "t"⟩)], [("1", "s")]⟩ "1").1.articlesIdSlugMap "1" =
      some "s" ∧
    (archiveArticle ⟨[("s", ⟨"1", "s", "t"⟩)], [("1", "s")]⟩ "1").2 =
      [⟨"PUT", "/news/archive/1"⟩] := by
  decide

/-- Claim C1, amended: only `addArticle` (matching by title) and
`updateArticle` (matching by id) evict matching cache entries from both
mappings before issuing their single write request; the eight remaining
mutations (`archiveArticle`, `activateArticle`, `removeArticle`,
`restoreArticle`, `moveArticle`, `makeArticleFirst`, `makeArticleGeek`,
`makeArticleNotGeek`) leave both mappings untouched and only issue their
requests. -/
theorem c1_only_add_update_evict (st : CacheState)
    (link title snippet content : String) (position : Option Int)
    (updatedId id : String) (offset : Int) (p : String × Article) :
    (p ∈ st.articlesCache → p.2.title = title →
      mapHas (addArticle st link title snippet content position).1.articlesCache p.1 = false ∧
      mapHas (addArticle st link title snippet content position).1.articlesIdSlugMap p.2.id = false) ∧
    (∃ u, (addArticle st link title snippet content position).2 = [⟨"POST", u⟩]) ∧
    (p ∈ st.articlesCache → p.2.id = updatedId →
      mapHas (updateArticle st updatedId).1.articlesCache p.1 = false ∧
      mapHas (updateArticle st updatedId).1.articlesIdSlugMap p.2.id = false) ∧
    (updateArticle st updatedId).2 = [⟨"POST", "/news/manual"⟩] ∧
    (archiveArticle st id).1 = st ∧
    (activateArticle st id).1 = st ∧
    (removeArticle st id).1 = st ∧
    (restoreArticle st id).1 = st ∧
    (moveArticle st id offset).1 = st ∧
    (makeArticleGeek st id).1 = st ∧
    (makeArticleNotGeek st id).1 = st ∧
    (∀ positions, (makeArticleFirst st id positions).1 = st) := by
  refine ⟨?_, ⟨_, rfl⟩, ?_, rfl, rfl, rfl, rfl, rfl, rfl, rfl, rfl, ?_⟩
  · intro hp ht
    exact evictLoopAux_removes _ st.articlesCache st p hp (by simp [ht])
  · intro hp hid
    exact evictLoopAux_removes _ st.articlesCache st p hp (by simp [hid])
  · intro positions
    cases h : mapGet positions id <;> simp [makeArticleFirst, h]

/-- Claim C1, witness: in a one-entry cache a title-matching `addArticle`
empties the slug map. -/
theorem c1_only_add_update_evict_witness :
    mapHas (addArticle ⟨[("s", ⟨"1", "s", "t"⟩)], [("1", "s")]⟩
        "http" "t" "" "" none).1.articlesCache "s" = false :=
  ((c1_only_add_update_evict ⟨[("s", ⟨"1", "s", "t"⟩)], [("1", "s")]⟩
      "http" "t" "" "" none "1" "1" 0 ("s", ⟨"1", "s", "t"⟩)).1
    (by decide) rfl).1

/-- Claim C2, counterexample: a 404 on the id endpoint makes `getArticle`
reject with the raw response — it does not resolve to the not-found
`null`. -/
theorem c2_counterexample :
    (getArticle initialCacheState "42" ⟨404, some ArticleBody.noId⟩).outcome =
      Except.error (GetFailure.http ⟨404, some ArticleBody.noId⟩) ∧
    (getArticle initialCacheState "42" ⟨404, some ArticleBody.noId⟩).outcome ≠
      Except.ok none := by
  refine ⟨rfl, fun h => ?_⟩
  exact Except.noConfusion h

/-- Claim C2, amended: on a cache miss `getArticle` treats every status
greater or equal 400 — 404 and 500 alike — as a propagated transport
failure carrying the raw response; the "not found" `null` outcome arises
only from a successful (below-400) response whose body lacks an `id`
field. -/
theorem c2_get_article_status (st : CacheState) (id : String)
    (resp : HttpResponse ArticleBody)
    (h : mapGet st.articlesIdSlugMap id = none) :
    (400 ≤ resp.status →
      (getArticle st id resp).outcome = Except.error (GetFailure.http resp)) ∧
    (resp.status < 400 → resp.json = some ArticleBody.noId →
      (getArticle st id resp).outcome = Except.ok none) := by
  constructor
  · intro hst
    simp [getArticle, h, request, hst]
  · intro hst hj
    simp [getArticle, h, request, Nat.not_le.mpr hst, hj]

/-- Claim C2, witness: a 500 rejects and a 200 body without id resolves
`null`. -/
theorem c2_get_article_status_witness :
    (getArticle initialCacheState "42" ⟨500, none⟩).outcome =
      Except.error (GetFailure.http ⟨500, none⟩) ∧
    (getArticle initialCacheState "42" ⟨200, some ArticleBody.noId⟩).outcome =
      Except.ok none :=
  ⟨(c2_get_article_status initialCacheState "42" ⟨500, none⟩ rfl).1 (by decide),
   (c2_get_article_status initialCacheState "42" ⟨200, some ArticleBody.noId⟩ rfl).2
     (by decide) rfl⟩

/-- Claim C3, counterexample: the snippet normalization is not idempotent:
on a 16-character word the second application appends a second soft-hyphen
marker after the same 16-character run. -/
theorem c3_counterexample :
    normalizeSnippet (normalizeSnippet "aaaaaaaaaaaaaaaa") ≠
      normalizeSnippet "aaaaaaaaaaaaaaaa" := by
  decide

/-- Claim C3, amended: the normalization is idempotent exactly on inputs
in which no run of 16 consecutive non-whitespace, non-backslash characters
occurs (then the soft-hyphen pass is the identity and whitespace collapse
is idempotent); inputs with such a run receive an additional marker on
re-application. -/
theorem c3_idempotent_of_no_long_run (s : String)
    (h : noLongRun 0 s.data = true) :
    normalizeSnippet (normalizeSnippet s) = normalizeSnippet s := by
  have h1 : noLongRun 0 (collapseWhitespace false s.data) = true :=
    noLongRun_collapseWhitespace s.data 0 false (by simp) h
  have e1 : insertShy 0 (collapseWhitespace false s.data) =
      collapseWhitespace false s.data :=
    insertShy_of_noLongRun _ 0 h1
  show List.asString (insertShy 0 (collapseWhitespace false
      (List.asString (insertShy 0 (collapseWhitespace false s.data))).data)) =
    List.asString (insertShy 0 (collapseWhitespace false s.data))
  rw [show (List.asString (insertShy 0 (collapseWhitespace false s.data))).data =
      insertShy 0 (collapseWhitespace false s.data) from rfl]
  rw [e1, collapseWhitespace_idem, e1]

/-- Claim C3, witness: a snippet of short words is a fixed point. -/
theorem c3_idempotent_of_no_long_run_witness :
    noLongRun 0 "a b".data = true ∧
    normalizeSnippet (normalizeSnippet "a b") = normalizeSnippet "a b" :=
  ⟨by decide, c3_idempotent_of_no_long_run "a b" (by decide)⟩

/-- Claim C4: starting from the empty cache, after any sequence of
`getArticle`, `getArticleBySlug`, `addArticle` and `updateArticle` calls
against a backend serving a fixed, consistent article table (each article
carries the id belonging to its slug and the slug endpoint returns the
requested slug — the identity stability of spec section 3), every key of
the id-to-slug mapping points at a slug that is a key of the
slug-to-article mapping; inserts and evictions always update the two maps
as a pair. -/
theorem c4_idslug_index_consistent (idOf : String → String) (ops : List CacheOp)
    (h : ∀ op ∈ ops, goodOp idOf op) :
    idSlugIndexConsistent (runCache initialCacheState ops) := by
  have hinv : cacheInv idOf (runCache initialCacheState ops) := by
    refine runCache_inv idOf ops initialCacheState h ⟨?_, ?_⟩
    · intro p hp
      simp [initialCacheState] at hp
    · intro q hq
      simp [initialCacheState] at hq
  intro q hq
  exact (hinv.2 q hq).2

/-- Claim C4, witness: a fetch-insert followed by an unrelated update
leaves the index pointing at a live slug. -/
theorem c4_idslug_index_consistent_witness :
    mapHas (runCache initialCacheState
        [CacheOp.getById "1" ⟨200, some (ArticleBody.raw ⟨"1", "s", "t"⟩)⟩,
         CacheOp.update "2"]).articlesCache "s" = true :=
  c4_idslug_index_consistent (fun _ => "1")
    [CacheOp.getById "1" ⟨200, some (ArticleBody.raw ⟨"1", "s", "t"⟩)⟩,
     CacheOp.update "2"]
    (by
      intro op hop
      rcases List.mem_cons.mp hop with heq | hop
      · subst heq; exact rfl
      · rcases List.mem_cons.mp hop with heq | hop
        · subst heq; exact trivial
        · simp at hop)
    ("1", "s") (by decide)

/-- Claim C5: `request` rejects with the raw response object on every
status greater or equal 400, and on lower statuses resolves with the parse
result of the body — `null` (`none`) instead of a rejection whenever the
body was empty or unparsable. -/
theorem c5_request_contract (α : Type) (resp : HttpResponse α) :
    (400 ≤ resp.status → request resp = Except.error resp) ∧
    (resp.status < 400 → request resp = Except.ok resp.json) ∧
    (resp.status < 400 → resp.json = none → request resp = Except.ok none) := by
  refine ⟨fun h => ?_, fun h => ?_, fun h hj => ?_⟩
  · simp [request, h]
  · simp [request, Nat.not_le.mpr h]
  · simp [request, Nat.not_le.mpr h, hj]

/-- Claim C5, witness: a 500 rejects with the response itself, a 200 with
unparsable body resolves `null`. -/
theorem c5_request_contract_witness :
    request (⟨500, some 7⟩ : HttpResponse Nat) = Except.error ⟨500, some 7⟩ ∧
    request (⟨200, none⟩ : HttpResponse Nat) = Except.ok none :=
  ⟨(c5_request_contract Nat ⟨500, some 7⟩).1 (by decide),
   (c5_request_contract Nat ⟨200, none⟩).2.2 (by decide) rfl⟩

/-- Claim C6, counterexample: on the table `{a: -1}` the code issues a
move with offset `1` (its fold over the positions is seeded with `0`),
while the claimed formula "maximum observed position minus the target's
position" yields `0` — so the issued URL differs from the claimed one. -/
theorem c6_counterexample :
    (makeArticleFirst initialCacheState "a" [("a", -1)]).2.1 =
      [⟨"GET", "/news/positions"⟩, ⟨"PUT", "/news/moveid/a/1"⟩] ∧
    claimMaxObserved [("a", -1)] - (-1 : Int) = 0 ∧
    ("/news/moveid/a/1" : String) ≠
      "/news/moveid/a/" ++ toString (claimMaxObserved [("a", -1)] - (-1 : Int)) := by
  decide

/-- Claim C6, amended: when the id is absent from the position table
`makeArticleFirst` fails with the position-not-found error after only the
table fetch (no move request); when present it issues exactly one
relative-move request whose offset is the maximum of `0` and the maximum
position observed in the table, minus the target's position. -/
theorem c6_move_to_front (st : CacheState) (id : String)
    (positions : List (String × Int)) :
    (mapGet positions id = none →
      makeArticleFirst st id positions =
        (st, [⟨"GET", "/news/positions"⟩], Except.error MoveError.positionNotFound)) ∧
    (∀ pos, mapGet positions id = some pos →
      makeArticleFirst st id positions =
        (st, [⟨"GET", "/news/positions"⟩,
              ⟨"PUT", "/news/moveid/" ++ id ++ "/" ++
                toString (max 0 (claimMaxObserved positions) - pos)⟩],
         Except.ok ())) := by
  constructor
  · intro h
    simp [makeArticleFirst, h]
  · intro pos h
    have hmax : positions.foldl (fun c q => max c q.2) 0 =
        max 0 (claimMaxObserved positions) := by
      cases positions with
      | nil => simp [mapGet] at h
      | cons p rest =>
        rw [foldl_max_snd]
        simp only [List.map_cons, List.foldl_cons, claimMaxObserved]
        exact foldl_max_pull _ 0 p.2
    simp only [makeArticleFirst, h, hmax]

/-- Claim C6, witness: on the table `{a: 2, b: 5}` the move offset is
`5 - 2 = 3`. -/
theorem c6_move_to_front_witness :
    makeArticleFirst initialCacheState "a" [("a", 2), ("b", 5)] =
      (initialCacheState,
       [⟨"GET", "/news/positions"⟩,
        ⟨"PUT", "/news/moveid/" ++ "a" ++ "/" ++
          toString (max 0 (claimMaxObserved [("a", 2), ("b", 5)]) - 2)⟩],
       Except.ok ()) :=
  (c6_move_to_front initialCacheState "a" [("a", 2), ("b", 5)]).2 2 (by decide)

/-- Claim C7: `pollActiveArticle` resolves exactly with the id of the
first successful long-poll response that carries an id field (absorbing
null bodies, id-less bodies and failures along the way, never rejecting),
logs every network failure it absorbs, and spends one fixed 3000 ms
cooldown per logged failure before retrying. -/
theorem c7_poll_absorbs_failures (evs : List PollEvent) :
    (pollActiveArticle evs).result = firstIdentityResponse evs ∧
    (pollActiveArticle evs).logged = failuresBeforeIdentity evs ∧
    (pollActiveArticle evs).slept = 3000 * (pollActiveArticle evs).logged := by
  induction evs with
  | nil => exact ⟨rfl, rfl, rfl⟩
  | cons e rest ih =>
    cases e with
    | failed =>
      have e3 : pollActiveArticle (PollEvent.failed :: rest) =
          ⟨(pollActiveArticle rest).result, 3000 + (pollActiveArticle rest).slept,
           1 + (pollActiveArticle rest).logged⟩ := rfl
      have e1 : firstIdentityResponse (PollEvent.failed :: rest) =
          firstIdentityResponse rest := rfl
      have e2 : failuresBeforeIdentity (PollEvent.failed :: rest) =
          1 + failuresBeforeIdentity rest := by
        simp [failuresBeforeIdentity, pollEventId]
      rw [e3, e1, e2]
      refine ⟨ih.1, ?_, ?_⟩
      · show 1 + (pollActiveArticle rest).logged = 1 + failuresBeforeIdentity rest
        rw [ih.2.1]
      · show 3000 + (pollActiveArticle rest).slept =
            3000 * (1 + (pollActiveArticle rest).logged)
        have h3 := ih.2.2
        omega
    | succeeded body =>
      cases body with
      | none =>
        have e3 : pollActiveArticle (PollEvent.succeeded none :: rest) =
            pollActiveArticle rest := rfl
        have e1 : firstIdentityResponse (PollEvent.succeeded none :: rest) =
            firstIdentityResponse rest := rfl
        have e2 : failuresBeforeIdentity (PollEvent.succeeded none :: rest) =
            failuresBeforeIdentity rest := by
          simp [failuresBeforeIdentity, pollEventId]
        rw [e3, e1, e2]
        exact ih
      | some ob =>
        cases ob with
        | none =>
          have e3 : pollActiveArticle (PollEvent.succeeded (some none) :: rest) =
              pollActiveArticle rest := rfl
          have e1 : firstIdentityResponse (PollEvent.succeeded (some none) :: rest) =
              firstIdentityResponse rest := rfl
          have e2 : failuresBeforeIdentity (PollEvent.succeeded (some none) :: rest) =
              failuresBeforeIdentity rest := by
            simp [failuresBeforeIdentity, pollEventId]
          rw [e3, e1, e2]
          exact ih
        | some i => exact ⟨rfl, rfl, rfl⟩

/-- Claim C8: `addNotification` on a plain string creates a notification
with level "default", time 3000 and closable true, appends it to the queue
and schedules its auto-dismiss timer; the timer firing (a
`removeNotification` dispatch) removes it from the queue when it was not
removed earlier; and `removeNotificationsWithContext c` keeps exactly the
notifications whose context differs from `c`. -/
theorem c8_notification_lifecycle (s : String) (nid : Nat) (st : StoreState)
    (c : Option String) (x : Notification) :
    ((createNotification (NotifInput.str s) nid).level = "default" ∧
     (createNotification (NotifInput.str s) nid).time = some 3000 ∧
     (createNotification (NotifInput.str s) nid).closable = true) ∧
    (addNotification st (NotifInput.str s) nid).2.2 = true ∧
    (addNotification st (NotifInput.str s) nid).1.notifications =
      st.notifications ++ [createNotification (NotifInput.str s) nid] ∧
    (createNotification (NotifInput.str s) nid ∉ st.notifications →
      (removeNotification (addNotification st (NotifInput.str s) nid).1
          (createNotification (NotifInput.str s) nid)).notifications =
        st.notifications) ∧
    (x ∈ (removeNotificationsWithContext st c).notifications ↔
      x ∈ st.notifications ∧ x.context ≠ c) := by
  refine ⟨⟨rfl, rfl, rfl⟩, rfl, rfl, fun h => ?_, ?_⟩
  · show removeFirstNotification
        (st.notifications ++ [createNotification (NotifInput.str s) nid])
        (createNotification (NotifInput.str s) nid) = st.notifications
    have := @removeFirstNotification_append st.notifications []
      (createNotification (NotifInput.str s) nid) h
    simpa using this
  · show x ∈ st.notifications.filter (fun n => !decide (n.context = c)) ↔
      x ∈ st.notifications ∧ x.context ≠ c
    rw [List.mem_filter]
    constructor
    · rintro ⟨hm, hd⟩
      exact ⟨hm, by simpa using hd⟩
    · rintro ⟨hm, hd⟩
      exact ⟨hm, by simpa using hd⟩

/-- Claim C8, witness: adding "x" to the empty store and letting the timer
fire leaves the queue empty again, and the defaults hold. -/
theorem c8_notification_lifecycle_witness :
    (createNotification (NotifInput.str "x") 0).level = "default" ∧
    (removeNotification (addNotification initialStoreState (NotifInput.str "x") 0).1
        (createNotification (NotifInput.str "x") 0)).notifications =
      initialStoreState.notifications :=
  ⟨(c8_notification_lifecycle "x" 0 initialStoreState none
      ⟨0, "", "default", none, true, none⟩).1.1,
   (c8_notification_lifecycle "x" 0 initialStoreState none
      ⟨0, "", "default", none, true, none⟩).2.2.2.1 (by decide)⟩

/-- Claim C9: a successful `getArticle` fetch-insert makes the immediately
following `getArticle` for the article's id and `getArticleBySlug` for its
slug return exactly the inserted article with no further network request
(symmetrically for a `getArticleBySlug` insert whose response carries the
requested slug); and removing a notification that is not in the queue
leaves the queue unchanged, so a stale auto-dismiss timer firing after an
explicit removal is a no-op. -/
theorem c9_cache_hit_returns_inserted (st : CacheState) (id slug : String)
    (a : Article) (resp resp2 resp3 : HttpResponse ArticleBody)
    (l : List Notification) (n : Notification) :
    (mapGet st.articlesIdSlugMap id = none → resp.status < 400 →
      resp.json = some (ArticleBody.raw a) →
      getArticle (getArticle st id resp).state a.id resp2 =
        ⟨(getArticle st id resp).state, [], Except.ok (some a)⟩ ∧
      getArticleBySlug (getArticle st id resp).state a.slug resp3 =
        ⟨(getArticle st id resp).state, [], Except.ok (some a)⟩) ∧
    (mapHas st.articlesCache slug = false → resp.status < 400 →
      resp.json = some (ArticleBody.raw a) → a.slug = slug →
      getArticleBySlug (getArticleBySlug st slug resp).state slug resp2 =
        ⟨(getArticleBySlug st slug resp).state, [], Except.ok (some a)⟩ ∧
      getArticle (getArticleBySlug st slug resp).state a.id resp3 =
        ⟨(getArticleBySlug st slug resp).state, [], Except.ok (some a)⟩) ∧
    (n ∉ l → removeFirstNotification l n = l) := by
  refine ⟨fun h1 h2 h3 => ?_, fun h1 h2 h3 h4 => ?_, fun h => removeFirstNotification_not_mem h⟩
  · have hstate : (getArticle st id resp).state =
        ⟨mapSet st.articlesCache a.slug a, mapSet st.articlesIdSlugMap a.id a.slug⟩ := by
      simp [getArticle, h1, request, Nat.not_le.mpr h2, h3]
    rw [hstate]
    constructor
    · simp [getArticle, mapGet_mapSet_self]
    · simp [getArticleBySlug, mapHas, mapGet_mapSet_self]
  · have hstate : (getArticleBySlug st slug resp).state =
        ⟨mapSet st.articlesCache slug a, mapSet st.articlesIdSlugMap a.id a.slug⟩ := by
      simp [getArticleBySlug, h1, request, Nat.not_le.mpr h2, h3]
    rw [hstate]
    constructor
    · simp [getArticleBySlug, mapHas, mapGet_mapSet_self]
    · rw [h4]
      simp [getArticle, mapGet_mapSet_self]

/-- Claim C9, witness: after fetching article 1 a second `getArticle`
returns the same article with an empty request list even though the
would-be response is a 500. -/
theorem c9_cache_hit_returns_inserted_witness :
    getArticle (getArticle initialCacheState "1"
        ⟨200, some (ArticleBody.raw ⟨"1", "s", "t"⟩)⟩).state "1" ⟨500, none⟩ =
      ⟨(getArticle initialCacheState "1"
          ⟨200, some (ArticleBody.raw ⟨"1", "s", "t"⟩)⟩).state, [],
       Except.ok (some ⟨"1", "s", "t"⟩)⟩ :=
  ((c9_cache_hit_returns_inserted initialCacheState "1" "s" ⟨"1", "s", "t"⟩
      ⟨200, some (ArticleBody.raw ⟨"1", "s", "t"⟩)⟩ ⟨500, none⟩ ⟨500, none⟩
      [] ⟨0, "", "default", none, true, none⟩).1 rfl (by decide) rfl).1

/-- Claim C10: a notification created without an explicit context field is
assigned context null (`none`) — both for the plain-string shape and for a
partial record without the key — so `removeNotificationsWithContext null`
removes every such default-context notification and keeps exactly the
notifications with a different context. -/
theorem c10_default_context (p : NotificationInit) (nid : Nat) (s : String)
    (st : StoreState) (x : Notification) :
    (p.context = none → (createNotification (NotifInput.init p) nid).context = none) ∧
    (createNotification (NotifInput.str s) nid).context = none ∧
    (x ∈ (removeNotificationsWithContext st none).notifications ↔
      x ∈ st.notifications ∧ x.context ≠ none) := by
  refine ⟨fun h => ?_, rfl, ?_⟩
  · simp [createNotification, h]
  · show x ∈ st.notifications.filter (fun n => !decide (n.context = none)) ↔
      x ∈ st.notifications ∧ x.context ≠ none
    rw [List.mem_filter]
    constructor
    · rintro ⟨hm, hd⟩
      exact ⟨hm, by simpa using hd⟩
    · rintro ⟨hm, hd⟩
      exact ⟨hm, by simpa using hd⟩

/-- Claim C10, witness: a record without a context key gets context
`none`. -/
theorem c10_default_context_witness :
    (createNotification (NotifInput.init ⟨some "hello", none, none, none, none⟩) 5).context =
      none :=
  (c10_default_context ⟨some "hello", none, none, none, none⟩ 5 "x"
      initialStoreState ⟨0, "", "default", none, true, none⟩).1 rfl

end RTNews
